import Mathlib

/-!
Shallow embedding of the protocol router of this repository
(src/src/router.ts): route table registration, path-segment matching with
named parameters, method filtering, ordered fallback dispatch with
context-builder integration, and the bind-time guard.

Effectful calls (context-builder invocations and handler invocations) are
recorded as an event trace so that ordering and invocation-count properties
of the dispatch loop can be stated and proved.
-/

set_option autoImplicit false

namespace EPRouter

/-- Model of the JavaScript values that flow through the router: thrown
errors, the synthetic JSON responses the router manufactures, and
handler-produced responses. A response made by Response.json with a body of
shape (message) or (message, reason) is respJson. -/
inductive JSVal where
  | nullV : JSVal
  | undef : JSVal
  | boolV (b : Bool) : JSVal
  | numV (n : Int) : JSVal
  | strV (s : String) : JSVal
  | errorObj (msg : String) : JSVal
  | objMsg (message : String) : JSVal
  | objMsgReason (message : String) (reason : JSVal) : JSVal
  | respJson (status : Nat) (body : JSVal) : JSVal
deriving DecidableEq, Repr

/-- JavaScript truthiness, used by the final if (lastError) check of the
dispatcher. Objects, errors and responses are truthy. -/
def truthy : JSVal → Bool
  | JSVal.nullV => false
  | JSVal.undef => false
  | JSVal.boolV b => b
  | JSVal.numV n => n != 0
  | JSVal.strV s => s != ""
  | _ => true

/-- The instanceof Response test the dispatcher applies to values thrown by
the context builder. -/
def isResponse : JSVal → Bool
  | JSVal.respJson _ _ => true
  | _ => false

/-- Response.json with body (message: Not found) and status 404, built at
the end of an exhausted dispatch when lastError is falsy. -/
def notFoundResponse : JSVal := JSVal.respJson 404 (JSVal.objMsg "Not found")

/-- Response.json with body (message: Internal error, reason) and status
500, built at the end of an exhausted dispatch when lastError is truthy. -/
def internalErrorResponse (reason : JSVal) : JSVal :=
  JSVal.respJson 500 (JSVal.objMsgReason "Internal error" reason)

/-- The URIError thrown by decodeURIComponent on a malformed escape
sequence. -/
def uriError : JSVal := JSVal.errorObj "URI malformed"

/-- An incoming request, taken after URL parsing: its method string and the
host and pathname components of its URL. -/
structure Request where
  method : String
  host : String
  pathname : String
deriving DecidableEq, Repr

/-- The params record built while matching a pattern: an insertion-ordered
mapping from parameter name to decoded value. -/
abbrev Params := List (String × String)

/-- JavaScript object property assignment on the params record: an existing
key is overwritten in place, a new key is appended. -/
def setParam (ps : Params) (k v : String) : Params :=
  if ps.any (fun kv => kv.1 == k) then
    ps.map (fun kv => if kv.1 == k then (k, v) else kv)
  else ps ++ [(k, v)]

/-- A registered handler: its identity tag (function identity), its declared
parameter count (the handler.length the dispatcher inspects), and its body,
which receives the request, the bound params and an optional context and
either returns a response value or throws. -/
structure Handler where
  tag : Nat
  arity : Nat
  run : Request → Params → Option JSVal → Except JSVal JSVal

/-- Observable effects of one dispatch: a context-builder invocation, a
handler invocation (with the params and context it received), and an
assignment to lastError. -/
inductive Event where
  | builderCall : Event
  | handlerCall (tag : Nat) (params : Params) (ctx : Option JSVal) : Event
  | errRecorded (e : JSVal) : Event
deriving DecidableEq, Repr

/-- The state of the dispatch scan when a loop level finishes: an early
returned response if any, the current lastError, and the events emitted. -/
structure ScanOut where
  resp : Option JSVal
  lastErr : JSVal
  events : List Event
deriving DecidableEq, Repr

/-- Value of one hexadecimal digit, as read by decodeURIComponent. -/
def hexDigitVal (c : Char) : Option Nat :=
  let n := c.toNat
  if 48 ≤ n ∧ n ≤ 57 then some (n - 48)
  else if 65 ≤ n ∧ n ≤ 70 then some (n - 55)
  else if 97 ≤ n ∧ n ≤ 102 then some (n - 87)
  else none

/-- Reads one percent escape from the front of the character list. -/
def pctByte : List Char → Option (Nat × List Char)
  | '%' :: h1 :: h2 :: rest =>
    match hexDigitVal h1, hexDigitVal h2 with
    | some a, some b => some (16 * a + b, rest)
    | _, _ => none
  | _ => none

/-- Reads one UTF-8 continuation byte, written as a percent escape. -/
def utf8Cont (cs : List Char) : Option (Nat × List Char) :=
  match pctByte cs with
  | some (b, rest) => if 0x80 ≤ b ∧ b < 0xC0 then some (b - 0x80, rest) else none
  | none => none

/-- Percent decoding with UTF-8 reassembly, as decodeURIComponent performs
it; malformed escapes and invalid byte sequences throw a URIError. The fuel
argument bounds the recursion and is always at least the input length, so
the fuel-exhausted branch is unreachable. -/
def decodeAux : Nat → List Char → Except JSVal (List Char)
  | _, [] => Except.ok []
  | 0, _ :: _ => Except.error uriError
  | fuel + 1, '%' :: cs =>
    match cs with
    | h1 :: h2 :: rest =>
      match hexDigitVal h1, hexDigitVal h2 with
      | some a, some b0 =>
        let b := 16 * a + b0
        if b < 0x80 then
          match decodeAux fuel rest with
          | Except.ok out => Except.ok (Char.ofNat b :: out)
          | Except.error e => Except.error e
        else if b < 0xC2 then Except.error uriError
        else if b ≤ 0xDF then
          match utf8Cont rest with
          | some (c1, rest1) =>
            match decodeAux fuel rest1 with
            | Except.ok out => Except.ok (Char.ofNat ((b - 0xC0) * 64 + c1) :: out)
            | Except.error e => Except.error e
          | none => Except.error uriError
        else if b ≤ 0xEF then
          match utf8Cont rest with
          | some (c1, rest1) =>
            match utf8Cont rest1 with
            | some (c2, rest2) =>
              let cp := (b - 0xE0) * 4096 + c1 * 64 + c2
              if cp < 0x800 ∨ (0xD800 ≤ cp ∧ cp ≤ 0xDFFF) then Except.error uriError
              else
                match decodeAux fuel rest2 with
                | Except.ok out => Except.ok (Char.ofNat cp :: out)
                | Except.error e => Except.error e
            | none => Except.error uriError
          | none => Except.error uriError
        else if b ≤ 0xF4 then
          match utf8Cont rest with
          | some (c1, rest1) =>
            match utf8Cont rest1 with
            | some (c2, rest2) =>
              match utf8Cont rest2 with
              | some (c3, rest3) =>
                let cp := (b - 0xF0) * 262144 + c1 * 4096 + c2 * 64 + c3
                if cp < 0x10000 ∨ 0x10FFFF < cp then Except.error uriError
                else
                  match decodeAux fuel rest3 with
                  | Except.ok out => Except.ok (Char.ofNat cp :: out)
                  | Except.error e => Except.error e
              | none => Except.error uriError
            | none => Except.error uriError
          | none => Except.error uriError
        else Except.error uriError
      | _, _ => Except.error uriError
    | _ => Except.error uriError
  | fuel + 1, c :: rest =>
    match decodeAux fuel rest with
    | Except.ok out => Except.ok (c :: out)
    | Except.error e => Except.error e

/-- decodeURIComponent, applied by the matcher to each request segment bound
to a named parameter. -/
def decodeURIComponent (s : String) : Except JSVal String :=
  match decodeAux s.data.length s.data with
  | Except.ok out => Except.ok (String.mk out)
  | Except.error e => Except.error e

/-- Helper for splitSlash, accumulating the current segment reversed. -/
def splitSlashAux : List Char → List Char → List String
  | [], acc => [String.mk acc.reverse]
  | c :: rest, acc =>
    if c == '/' then String.mk acc.reverse :: splitSlashAux rest []
    else splitSlashAux rest (c :: acc)

/-- The split on the slash character applied to patterns and to the
normalized request path. -/
def splitSlash (s : String) : List String := splitSlashAux s.data []

/-- Whether a pattern segment starts with a colon, making it a named
parameter. -/
def startsColon (s : String) : Bool :=
  match s.data with
  | c :: _ => c == ':'
  | [] => false

/-- The parameter name of a colon segment: everything after the first
character. -/
def paramName (s : String) : String := String.mk (s.data.drop 1)

/-- Uppercasing applied to the request method before bucket comparison. -/
def toUpperStr (s : String) : String := String.mk (s.data.map Char.toUpper)

/-- The pairwise segment walk of the matcher, run after the segment counts
were found equal: a colon segment binds the decoded request segment (a
decode failure propagates as a thrown error), any other segment must be
equal character for character. -/
def matchSegments : List String → List String → Params → Except JSVal (Option Params)
  | [], [], acc => Except.ok (some acc)
  | r :: rs, p :: ps, acc =>
    if startsColon r then
      match decodeURIComponent p with
      | Except.error e => Except.error e
      | Except.ok v => matchSegments rs ps (setParam acc (paramName r) v)
    else if r = p then matchSegments rs ps acc
    else Except.ok none
  | _, _, _ => Except.ok none

/-- One candidate pattern checked against the request path segments:
rejected outright on differing segment counts, otherwise the pairwise
walk. -/
def matchPattern (pattern : String) (pathParts : List String) : Except JSVal (Option Params) :=
  let routeParts := splitSlash pattern
  if routeParts.length ≠ pathParts.length then Except.ok none
  else matchSegments routeParts pathParts []

/-- The normalized request path segments: slash, host and pathname
concatenated, then split on slashes. -/
def pathPartsOf (req : Request) : List String :=
  splitSlash ("/" ++ req.host ++ req.pathname)

/-- The uppercased request method the dispatcher compares buckets
against. -/
def methodOf (req : Request) : String := toUpperStr req.method

/-- Outcome of one handler attempt: an early return with a response value,
or a recorded failure after which the loop continues. -/
inductive AttemptOut where
  | respond (r : JSVal) : AttemptOut
  | fail (e : JSVal) : AttemptOut
deriving DecidableEq, Repr

/-- One iteration of the handler loop of the dispatcher: without a context
builder the handler is invoked directly; with one, the builder runs first
and its thrown values are inspected — a thrown response is returned as is, a
thrown non-response still lets a handler that declares fewer than two
parameters run without context, and otherwise becomes the recorded error. -/
def attempt (cb : Option (Request → Except JSVal JSVal)) (req : Request) (params : Params)
    (h : Handler) : AttemptOut × List Event :=
  match cb with
  | none =>
    match h.run req params none with
    | Except.ok r => (AttemptOut.respond r, [Event.handlerCall h.tag params none])
    | Except.error e =>
      (AttemptOut.fail e, [Event.handlerCall h.tag params none, Event.errRecorded e])
  | some b =>
    match b req with
    | Except.ok c =>
      match h.run req params (some c) with
      | Except.ok r =>
        (AttemptOut.respond r, [Event.builderCall, Event.handlerCall h.tag params (some c)])
      | Except.error e =>
        (AttemptOut.fail e,
          [Event.builderCall, Event.handlerCall h.tag params (some c), Event.errRecorded e])
    | Except.error e =>
      if isResponse e then (AttemptOut.respond e, [Event.builderCall])
      else if h.arity < 2 then
        match h.run req params none with
        | Except.ok r =>
          (AttemptOut.respond r, [Event.builderCall, Event.handlerCall h.tag params none])
        | Except.error e2 =>
          (AttemptOut.fail e2,
            [Event.builderCall, Event.handlerCall h.tag params none, Event.errRecorded e2])
      else (AttemptOut.fail e, [Event.builderCall, Event.errRecorded e])

/-- The handler loop over the handlers of one matched pattern, threading
lastError. -/
def tryHandlers (cb : Option (Request → Except JSVal JSVal)) (req : Request) (params : Params) :
    List Handler → JSVal → ScanOut
  | [], le => ⟨none, le, []⟩
  | h :: hs, le =>
    match attempt cb req params h with
    | (AttemptOut.respond r, evs) => ⟨some r, le, evs⟩
    | (AttemptOut.fail e, evs) =>
      let out := tryHandlers cb req params hs e
      ⟨out.resp, out.lastErr, evs ++ out.events⟩

/-- The pattern loop over one method bucket: a throwing match (decode
failure) is caught, recorded and skipped; a non-match is skipped; for a
match the handler loop runs and, if it produced no response, the scan moves
to the next pattern. -/
def tryPatterns (cb : Option (Request → Except JSVal JSVal)) (req : Request)
    (pathParts : List String) : List (String × List Handler) → JSVal → ScanOut
  | [], le => ⟨none, le, []⟩
  | (pat, hs) :: rest, le =>
    match matchPattern pat pathParts with
    | Except.error e =>
      let out := tryPatterns cb req pathParts rest e
      ⟨out.resp, out.lastErr, Event.errRecorded e :: out.events⟩
    | Except.ok none => tryPatterns cb req pathParts rest le
    | Except.ok (some params) =>
      let out1 := tryHandlers cb req params hs le
      match out1.resp with
      | some _ => out1
      | none =>
        let out2 := tryPatterns cb req pathParts rest out1.lastErr
        ⟨out2.resp, out2.lastErr, out1.events ++ out2.events⟩

/-- The route table: method key (an uppercase method name or the star
wildcard) to pattern string to handlers, both levels in insertion order. -/
abbrev Routes := List (String × List (String × List Handler))

/-- The method loop of the dispatcher: buckets whose key is neither the star
wildcard nor the request method are skipped; the others are scanned in table
order. -/
def tryMethods (cb : Option (Request → Except JSVal JSVal)) (req : Request)
    (pathParts : List String) (reqMethod : String) : Routes → JSVal → ScanOut
  | [], le => ⟨none, le, []⟩
  | (m, entry) :: rest, le =>
    if m ≠ "*" ∧ m ≠ reqMethod then tryMethods cb req pathParts reqMethod rest le
    else
      let out1 := tryPatterns cb req pathParts entry le
      match out1.resp with
      | some _ => out1
      | none =>
        let out2 := tryMethods cb req pathParts reqMethod rest out1.lastErr
        ⟨out2.resp, out2.lastErr, out1.events ++ out2.events⟩

/-- A router: its route table and the optional context builder supplied at
construction. -/
structure Router where
  routes : Routes
  ctxBuilder : Option (Request → Except JSVal JSVal)

/-- The full scan of one dispatch, starting from a null lastError. -/
def dispatchScan (r : Router) (req : Request) : ScanOut :=
  tryMethods r.ctxBuilder req (pathPartsOf req) (methodOf req) r.routes JSVal.nullV

/-- The dispatcher: the scan result if a response was returned, otherwise
the internal-error response when lastError is truthy and the not-found
response when it is not. The emitted events are returned alongside. -/
def dispatch (r : Router) (req : Request) : JSVal × List Event :=
  let out := dispatchScan r req
  match out.resp with
  | some resp => (resp, out.events)
  | none =>
    (if truthy out.lastErr then internalErrorResponse out.lastErr else notFoundResponse,
      out.events)

/-- Association list lookup, the read of both route table levels. -/
def assocGet {α : Type} : List (String × α) → String → Option α
  | [], _ => none
  | (k, v) :: rest, key => if k = key then some v else assocGet rest key

/-- Association list write with map semantics: an existing key is updated in
place, a new key is appended at the end. -/
def assocSet {α : Type} : List (String × α) → String → α → List (String × α)
  | [], key, v => [(key, v)]
  | (k, w) :: rest, key, v =>
    if k = key then (k, v) :: rest else (k, w) :: assocSet rest key v

/-- The private add of the router: creates the bucket and the handler list
on first registration and appends to the existing list otherwise. -/
def addRoute (routes : Routes) (method pattern : String) (h : Handler) : Routes :=
  match assocGet routes method with
  | none => assocSet routes method [(pattern, [h])]
  | some entry =>
    match assocGet entry pattern with
    | some hs => assocSet routes method (assocSet entry pattern (hs ++ [h]))
    | none => assocSet routes method (assocSet entry pattern [h])

/-- The handler list registered under one method and pattern key, empty when
the key is absent. -/
def getHandlers (routes : Routes) (method pattern : String) : List Handler :=
  match assocGet routes method with
  | none => []
  | some entry => (assocGet entry pattern).getD []

/-- A fresh router with an empty route table. -/
def mkRouter (cb : Option (Request → Except JSVal JSVal)) : Router := ⟨[], cb⟩

/-- Registration under an explicit method key. -/
def Router.add (r : Router) (m pattern : String) (h : Handler) : Router :=
  ⟨addRoute r.routes m pattern h, r.ctxBuilder⟩

/-- The get registration method bound in the constructor. -/
def Router.get (r : Router) (pattern : String) (h : Handler) : Router := r.add "GET" pattern h

/-- The post registration method bound in the constructor. -/
def Router.post (r : Router) (pattern : String) (h : Handler) : Router := r.add "POST" pattern h

/-- The put registration method bound in the constructor. -/
def Router.put (r : Router) (pattern : String) (h : Handler) : Router := r.add "PUT" pattern h

/-- The delete registration method bound in the constructor. -/
def Router.delete (r : Router) (pattern : String) (h : Handler) : Router :=
  r.add "DELETE" pattern h

/-- The patch registration method bound in the constructor. -/
def Router.patch (r : Router) (pattern : String) (h : Handler) : Router := r.add "PATCH" pattern h

/-- The head registration method bound in the constructor. -/
def Router.head (r : Router) (pattern : String) (h : Handler) : Router := r.add "HEAD" pattern h

/-- The options registration method bound in the constructor. -/
def Router.options (r : Router) (pattern : String) (h : Handler) : Router :=
  r.add "OPTIONS" pattern h

/-- The trace registration method bound in the constructor. -/
def Router.trace (r : Router) (pattern : String) (h : Handler) : Router := r.add "TRACE" pattern h

/-- The connect registration method bound in the constructor. -/
def Router.connect (r : Router) (pattern : String) (h : Handler) : Router :=
  r.add "CONNECT" pattern h

/-- The wildcard registration method on, storing under the star key. -/
def Router.on (r : Router) (pattern : String) (h : Handler) : Router := r.add "*" pattern h

/-- The transport: the scheme handlers installed so far. -/
structure Protocol where
  handlers : List (String × (Request → JSVal × List Event))

/-- Result of binding a router to the transport: the configuration error
value, or the transport with the dispatcher installed. -/
inductive RegisterResult where
  | errorV (e : JSVal) : RegisterResult
  | ok (p : Protocol) : RegisterResult

/-- The message of the configuration error returned when binding a router
with an empty route table. -/
def noHandlersMsg : String :=
  "No handlers have been registered. Please add at least one handler before calling this method."

/-- The bind operation: an empty route table yields the configuration error
and installs nothing; otherwise the dispatcher is installed for the
scheme. -/
def Router.register (r : Router) (p : Protocol) (scheme : String) : RegisterResult :=
  if r.routes.length = 0 then RegisterResult.errorV (JSVal.errorObj noHandlersMsg)
  else RegisterResult.ok ⟨p.handlers ++ [(scheme, dispatch r)]⟩

/-- The errors recorded during a dispatch, in order of recording. -/
def errorsOf (evs : List Event) : List JSVal :=
  evs.filterMap fun e =>
    match e with
    | Event.errRecorded v => some v
    | _ => none

/-- The last element of a list, or the given default when the list is empty;
lastError is the last recorded error or its initial null. -/
def lastD : List JSVal → JSVal → JSVal
  | [], d => d
  | x :: xs, _ => lastD xs x

/-- Number of context-builder invocations in an event trace. -/
def builderCalls (evs : List Event) : Nat :=
  evs.countP fun e =>
    match e with
    | Event.builderCall => true
    | _ => false

/-- Number of handler invocations in an event trace. -/
def handlerCalls (evs : List Event) : Nat :=
  evs.countP fun e =>
    match e with
    | Event.handlerCall _ _ _ => true
    | _ => false

/-- Whether the trace contains an invocation of the handler with the given
tag. -/
def callsTag (evs : List Event) (t : Nat) : Bool :=
  evs.any fun e =>
    match e with
    | Event.handlerCall t2 _ _ => t2 == t
    | _ => false

/-- Scans a trace checking that every handler invocation is immediately
preceded by a context-builder invocation; the flag records whether the
previous event was a builder invocation. -/
def pairedAux : Bool → List Event → Bool
  | _, [] => true
  | prev, Event.handlerCall _ _ _ :: rest => prev && pairedAux false rest
  | _, Event.builderCall :: rest => pairedAux true rest
  | _, Event.errRecorded _ :: rest => pairedAux false rest

/-- Every handler invocation in the trace is immediately preceded by its own
context-builder invocation. -/
def handlerCallsPaired (evs : List Event) : Bool := pairedAux false evs

/-- The flag state of pairedAux after consuming a trace. -/
def pairedState : Bool → List Event → Bool
  | p, [] => p
  | _, Event.builderCall :: rest => pairedState true rest
  | _, _ :: rest => pairedState false rest

/-- Whether decoding the segment succeeds, as the specification words it. -/
def decodeOk (s : String) : Bool :=
  match decodeURIComponent s with
  | Except.ok _ => true
  | Except.error _ => false

/-- Modelled from the specification words of the matching rules: equal
segment counts are assumed, and each pattern segment either is a named
parameter whose request segment decodes, or equals the request segment
exactly. -/
def specSegsMatch : List String → List String → Bool
  | [], [] => true
  | r :: rs, p :: ps =>
    (if startsColon r then decodeOk p else r == p) && specSegsMatch rs ps
  | _, _ => false

/-- Modelled from the specification words of parameter binding: each named
parameter segment binds the name after the colon to the decoded request
segment, accumulated left to right. -/
def specBinds : List String → List String → Params → Params
  | r :: rs, p :: ps, acc =>
    if startsColon r then
      match decodeURIComponent p with
      | Except.ok v => specBinds rs ps (setParam acc (paramName r) v)
      | Except.error _ => specBinds rs ps acc
    else specBinds rs ps acc
  | _, _, acc => acc

/-- A pattern present in the route table under some method key. -/
def registeredPattern (routes : Routes) (pat : String) : Prop :=
  ∃ m entry hs, (m, entry) ∈ routes ∧ (pat, hs) ∈ entry

/-- The route table invariant: every handler list reachable under a method
and pattern key is non-empty. -/
def routesWF (routes : Routes) : Prop :=
  ∀ m entry, assocGet routes m = some entry →
    ∀ p hs, assocGet entry p = some hs → hs ≠ []

/-- Whether a method bucket is eligible for a request method: the star
wildcard bucket or the bucket of the method itself. -/
def eligible (reqMethod m : String) : Bool := m == "*" || m == reqMethod

/-- Modelled from the specification words of bucket scanning: the scan that
visits every bucket of the given table in order, with no method filter. -/
def scanBuckets (cb : Option (Request → Except JSVal JSVal)) (req : Request)
    (pathParts : List String) : Routes → JSVal → ScanOut
  | [], le => ⟨none, le, []⟩
  | (_, entry) :: rest, le =>
    let out1 := tryPatterns cb req pathParts entry le
    match out1.resp with
    | some _ => out1
    | none =>
      let out2 := scanBuckets cb req pathParts rest out1.lastErr
      ⟨out2.resp, out2.lastErr, out1.events ++ out2.events⟩

/-- A 200 response used by the concrete fixtures. -/
def ok200 : JSVal := JSVal.respJson 200 (JSVal.objMsg "ok")

/-- A 401 response used as a thrown pre-formed response by the fixtures. -/
def resp401 : JSVal := JSVal.respJson 401 (JSVal.objMsg "unauthorized")

/-- A handler that always returns the given response. -/
def hOk (t : Nat) (v : JSVal) : Handler := ⟨t, 1, fun _ _ _ => Except.ok v⟩

/-- A handler that always throws the given value. -/
def hThrow (t : Nat) (e : JSVal) : Handler := ⟨t, 1, fun _ _ _ => Except.error e⟩

/-- A two-parameter handler (declares it requires context) returning the
given response. -/
def hOk2 (t : Nat) (v : JSVal) : Handler := ⟨t, 2, fun _ _ _ => Except.ok v⟩

/-- Fixture request: GET on host x with empty pathname, whose normalized
path is slash x. -/
def reqX : Request := ⟨"GET", "x", ""⟩

/-- Fixture request: GET on host user with pathname slash 42. -/
def reqUser42 : Request := ⟨"GET", "user", "/42"⟩

/-- Fixture: two handlers on one GET pattern, the first of arity one
throwing, the second of arity two, under a context builder that always fails
with a non-response error. The second handler is skipped because it declares
it requires context. -/
def rC2x : Router :=
  (mkRouter (some fun _ => Except.error (JSVal.strV "ctxfail"))).get "/x"
      (hThrow 1 (JSVal.strV "h1boom")) |>.get "/x" (hOk2 2 ok200)

/-- Fixture: two throwing handlers on one GET pattern, the second throwing
the falsy null, so the dispatch ends with a falsy lastError. -/
def rC3x : Router :=
  (mkRouter none).get "/x" (hThrow 1 (JSVal.strV "boom")) |>.get "/x" (hThrow 2 JSVal.nullV)

/-- Fixture: a context builder that always returns a context value, with a
first handler that throws and a second that succeeds. -/
def rC6x : Router :=
  (mkRouter (some fun _ => Except.ok (JSVal.numV 7))).get "/user/:id"
      (hThrow 1 (JSVal.strV "boom")) |>.get "/user/:id" (hOk 2 ok200)

/-- Fixture: a context builder that always throws a pre-formed 401 response,
over one matching GET route. -/
def rC4x : Router :=
  (mkRouter (some fun _ => Except.error resp401)).get "/x" (hOk 1 ok200) |>.get "/x"
      (hOk 2 ok200)

/-- Fixture: a single GET route that does not match the fixture request on
host y. -/
def rC5x : Router := (mkRouter none).get "/x" (hOk 1 ok200)

/-- Fixture request that matches no route of the C5 fixture. -/
def reqY : Request := ⟨"GET", "y", ""⟩

/-- Fixture: a wildcard registration plus a GET registration on the same
pattern, the wildcard one throwing. -/
def rC7x : Router :=
  (mkRouter none).on "/any" (hThrow 1 (JSVal.strV "wboom")) |>.get "/any" (hOk 2 ok200)

/-- Fixture: a single wildcard registration. -/
def rC7w : Router := (mkRouter none).on "/any" (hOk 1 ok200)

/-- Fixture request: GET to the wildcard pattern. -/
def reqAnyGet : Request := ⟨"GET", "any", ""⟩

/-- Fixture request: POST to the wildcard pattern. -/
def reqAnyPost : Request := ⟨"POST", "any", ""⟩

/-- Fixture: a single GET route whose handler throws the falsy null. -/
def rC10x : Router := (mkRouter none).get "/x" (hThrow 1 JSVal.nullV)

/-- Fixture: a single GET route whose handler throws a truthy string. -/
def rC3w : Router := (mkRouter none).get "/x" (hThrow 1 (JSVal.strV "boom"))

/-- Fixture: two handlers registered for the same GET pattern, the first
throwing, with no context builder. -/
def rC2w : Router :=
  (mkRouter none).get "/x" (hThrow 1 (JSVal.strV "first")) |>.get "/x" (hOk 2 ok200)

theorem assocGet_set_self {α : Type} (l : List (String × α)) (k : String) (v : α) :
    assocGet (assocSet l k v) k = some v := by
  induction l with
  | nil => simp [assocGet, assocSet]
  | cons hd tl ih =>
    obtain ⟨k1, v1⟩ := hd
    by_cases h : k1 = k
    · subst h; simp [assocSet, assocGet]
    · simp [assocSet, assocGet, h, ih]

theorem assocGet_set_ne {α : Type} (l : List (String × α)) (k : String) (v : α) (k' : String)
    (h : k' ≠ k) : assocGet (assocSet l k v) k' = assocGet l k' := by
  induction l with
  | nil => simp [assocGet, assocSet, Ne.symm h]
  | cons hd tl ih =>
    obtain ⟨k1, v1⟩ := hd
    by_cases h1 : k1 = k
    · subst h1
      simp [assocSet, assocGet, Ne.symm h]
    · by_cases h2 : k1 = k'
      · simp [assocSet, assocGet, h, h1, h2]
      · simp [assocSet, assocGet, h1, h2, ih]

theorem addRoute_absent (routes : Routes) (m p : String) (hnd : Handler)
    (hm : assocGet routes m = none) :
    addRoute routes m p hnd = assocSet routes m [(p, [hnd])] := by
  unfold addRoute; rw [hm]

theorem addRoute_newPattern (routes : Routes) (m p : String) (hnd : Handler)
    (entry : List (String × List Handler)) (hm : assocGet routes m = some entry)
    (hp : assocGet entry p = none) :
    addRoute routes m p hnd = assocSet routes m (assocSet entry p [hnd]) := by
  unfold addRoute; rw [hm]; dsimp only; rw [hp]

theorem addRoute_existing (routes : Routes) (m p : String) (hnd : Handler)
    (entry : List (String × List Handler)) (hs : List Handler)
    (hm : assocGet routes m = some entry) (hp : assocGet entry p = some hs) :
    addRoute routes m p hnd = assocSet routes m (assocSet entry p (hs ++ [hnd])) := by
  unfold addRoute; rw [hm]; dsimp only; rw [hp]

theorem getHandlers_addRoute_self (routes : Routes) (m p : String) (hnd : Handler) :
    getHandlers (addRoute routes m p hnd) m p = getHandlers routes m p ++ [hnd] := by
  cases hm : assocGet routes m with
  | none =>
    rw [addRoute_absent routes m p hnd hm]
    simp [getHandlers, hm, assocGet_set_self, assocGet]
  | some entry =>
    cases hp : assocGet entry p with
    | none =>
      rw [addRoute_newPattern routes m p hnd entry hm hp]
      simp [getHandlers, hm, hp, assocGet_set_self]
    | some hs =>
      rw [addRoute_existing routes m p hnd entry hs hm hp]
      simp [getHandlers, hm, hp, assocGet_set_self]

theorem getHandlers_addRoute_other (routes : Routes) (m p : String) (hnd : Handler)
    (m' p' : String) (hne : m' ≠ m ∨ p' ≠ p) :
    getHandlers (addRoute routes m p hnd) m' p' = getHandlers routes m' p' := by
  by_cases hmm : m' = m
  · subst hmm
    have hpp : p' ≠ p := by tauto
    cases hm : assocGet routes m' with
    | none =>
      rw [addRoute_absent routes m' p hnd hm]
      simp [getHandlers, hm, assocGet_set_self, assocGet, Ne.symm hpp]
    | some entry =>
      cases hp : assocGet entry p with
      | none =>
        rw [addRoute_newPattern routes m' p hnd entry hm hp]
        simp [getHandlers, hm, assocGet_set_self, assocGet_set_ne _ _ _ _ hpp]
      | some hs =>
        rw [addRoute_existing routes m' p hnd entry hs hm hp]
        simp [getHandlers, hm, assocGet_set_self, assocGet_set_ne _ _ _ _ hpp]
  · cases hm : assocGet routes m with
    | none =>
      rw [addRoute_absent routes m p hnd hm]
      simp [getHandlers, assocGet_set_ne _ _ _ _ hmm]
    | some entry =>
      cases hp : assocGet entry p with
      | none =>
        rw [addRoute_newPattern routes m p hnd entry hm hp]
        simp [getHandlers, assocGet_set_ne _ _ _ _ hmm]
      | some hs =>
        rw [addRoute_existing routes m p hnd entry hs hm hp]
        simp [getHandlers, assocGet_set_ne _ _ _ _ hmm]

theorem routesWF_addRoute {routes : Routes} (m p : String) (hnd : Handler)
    (wf : routesWF routes) : routesWF (addRoute routes m p hnd) := by
  cases hm0 : assocGet routes m with
  | none =>
    rw [addRoute_absent routes m p hnd hm0]
    intro m' entry' hm' p' hs' hp'
    by_cases hmm : m' = m
    · subst hmm
      rw [assocGet_set_self] at hm'
      injection hm' with hm'
      subst hm'
      simp only [assocGet] at hp'
      by_cases hpp : p = p'
      · rw [if_pos hpp] at hp'
        injection hp' with hp'
        subst hp'
        simp
      · rw [if_neg hpp] at hp'
        cases hp'
    · rw [assocGet_set_ne _ _ _ _ hmm] at hm'
      exact wf m' entry' hm' p' hs' hp'
  | some entry =>
    cases hp0 : assocGet entry p with
    | none =>
      rw [addRoute_newPattern routes m p hnd entry hm0 hp0]
      intro m' entry' hm' p' hs' hp'
      by_cases hmm : m' = m
      · subst hmm
        rw [assocGet_set_self] at hm'
        injection hm' with hm'
        subst hm'
        by_cases hpp : p' = p
        · subst hpp
          rw [assocGet_set_self] at hp'
          injection hp' with hp'
          subst hp'
          simp
        · rw [assocGet_set_ne _ _ _ _ hpp] at hp'
          exact wf m' entry hm0 p' hs' hp'
      · rw [assocGet_set_ne _ _ _ _ hmm] at hm'
        exact wf m' entry' hm' p' hs' hp'
    | some hs0 =>
      rw [addRoute_existing routes m p hnd entry hs0 hm0 hp0]
      intro m' entry' hm' p' hs' hp'
      by_cases hmm : m' = m
      · subst hmm
        rw [assocGet_set_self] at hm'
        injection hm' with hm'
        subst hm'
        by_cases hpp : p' = p
        · subst hpp
          rw [assocGet_set_self] at hp'
          injection hp' with hp'
          subst hp'
          simp
        · rw [assocGet_set_ne _ _ _ _ hpp] at hp'
          exact wf m' entry hm0 p' hs' hp'
      · rw [assocGet_set_ne _ _ _ _ hmm] at hm'
        exact wf m' entry' hm' p' hs' hp'

theorem lastD_nil (d : JSVal) : lastD [] d = d := rfl

theorem lastD_cons (x : JSVal) (xs : List JSVal) (d : JSVal) :
    lastD (x :: xs) d = lastD xs x := rfl

theorem lastD_append (a b : List JSVal) (d : JSVal) :
    lastD (a ++ b) d = lastD b (lastD a d) := by
  induction a generalizing d with
  | nil => simp [lastD]
  | cons x xs ih => simp [lastD, ih]

theorem errorsOf_nil : errorsOf [] = [] := rfl

theorem errorsOf_append (a b : List Event) : errorsOf (a ++ b) = errorsOf a ++ errorsOf b := by
  simp [errorsOf, List.filterMap_append]

theorem attempt_respond_errors (cb : Option (Request → Except JSVal JSVal)) (req : Request)
    (params : Params) (h : Handler) (r : JSVal) (evs : List Event)
    (H : attempt cb req params h = (AttemptOut.respond r, evs)) : errorsOf evs = [] := by
  cases cb with
  | none =>
    cases hr : h.run req params none with
    | ok v =>
      simp [attempt, hr] at H
      obtain ⟨-, rfl⟩ := H
      simp [errorsOf]
    | error e => simp [attempt, hr] at H
  | some b =>
    cases hb : b req with
    | ok c =>
      cases hr : h.run req params (some c) with
      | ok v =>
        simp [attempt, hb, hr] at H
        obtain ⟨-, rfl⟩ := H
        simp [errorsOf]
      | error e => simp [attempt, hb, hr] at H
    | error e =>
      by_cases hresp : isResponse e
      · simp [attempt, hb, hresp] at H
        obtain ⟨-, rfl⟩ := H
        simp [errorsOf]
      · by_cases har : h.arity < 2
        · cases hr : h.run req params none with
          | ok v =>
            simp [attempt, hb, hresp, har, hr] at H
            obtain ⟨-, rfl⟩ := H
            simp [errorsOf]
          | error e2 => simp [attempt, hb, hresp, har, hr] at H
        · simp [attempt, hb, hresp, har] at H

theorem attempt_fail_lastD (cb : Option (Request → Except JSVal JSVal)) (req : Request)
    (params : Params) (h : Handler) (e : JSVal) (evs : List Event)
    (H : attempt cb req params h = (AttemptOut.fail e, evs)) (d : JSVal) :
    lastD (errorsOf evs) d = e := by
  cases cb with
  | none =>
    cases hr : h.run req params none with
    | ok v => simp [attempt, hr] at H
    | error e0 =>
      simp [attempt, hr] at H
      obtain ⟨rfl, rfl⟩ := H
      simp [errorsOf, lastD]
  | some b =>
    cases hb : b req with
    | ok c =>
      cases hr : h.run req params (some c) with
      | ok v => simp [attempt, hb, hr] at H
      | error e0 =>
        simp [attempt, hb, hr] at H
        obtain ⟨rfl, rfl⟩ := H
        simp [errorsOf, lastD]
    | error e0 =>
      by_cases hresp : isResponse e0
      · simp [attempt, hb, hresp] at H
      · by_cases har : h.arity < 2
        · cases hr : h.run req params none with
          | ok v => simp [attempt, hb, hresp, har, hr] at H
          | error e2 =>
            simp [attempt, hb, hresp, har, hr] at H
            obtain ⟨rfl, rfl⟩ := H
            simp [errorsOf, lastD]
        · simp [attempt, hb, hresp, har] at H
          obtain ⟨rfl, rfl⟩ := H
          simp [errorsOf, lastD]

theorem tryHandlers_lastErr (cb : Option (Request → Except JSVal JSVal)) (req : Request)
    (params : Params) :
    ∀ (hs : List Handler) (le : JSVal),
      (tryHandlers cb req params hs le).lastErr
        = lastD (errorsOf (tryHandlers cb req params hs le).events) le := by
  intro hs
  induction hs with
  | nil => intro le; simp [tryHandlers, errorsOf, lastD]
  | cons h hs ih =>
    intro le
    cases hA : attempt cb req params h with
    | mk fst evs =>
      cases fst with
      | respond r =>
        have he : errorsOf evs = [] := attempt_respond_errors cb req params h r evs hA
        simp [tryHandlers, hA, he, lastD]
      | fail e =>
        have he := attempt_fail_lastD cb req params h e evs hA
        simp only [tryHandlers, hA]
        rw [errorsOf_append, lastD_append, he le]
        exact ih e

theorem tryPatterns_lastErr (cb : Option (Request → Except JSVal JSVal)) (req : Request)
    (pathParts : List String) :
    ∀ (entry : List (String × List Handler)) (le : JSVal),
      (tryPatterns cb req pathParts entry le).lastErr
        = lastD (errorsOf (tryPatterns cb req pathParts entry le).events) le := by
  intro entry
  induction entry with
  | nil => intro le; simp [tryPatterns, errorsOf, lastD]
  | cons pe rest ih =>
    obtain ⟨pat, hs⟩ := pe
    intro le
    cases hM : matchPattern pat pathParts with
    | error e =>
      simp only [tryPatterns, hM]
      have hcons : errorsOf (Event.errRecorded e :: (tryPatterns cb req pathParts rest e).events)
          = e :: errorsOf (tryPatterns cb req pathParts rest e).events := by simp [errorsOf]
      rw [hcons, lastD_cons]
      exact ih e
    | ok oparams =>
      cases oparams with
      | none =>
        simp only [tryPatterns, hM]
        exact ih le
      | some params =>
        simp only [tryPatterns, hM]
        cases hR : (tryHandlers cb req params hs le).resp with
        | some r =>
          simp only [hR]
          exact tryHandlers_lastErr cb req params hs le
        | none =>
          simp only [hR]
          rw [errorsOf_append, lastD_append, ← tryHandlers_lastErr cb req params hs le]
          exact ih _

theorem tryMethods_lastErr (cb : Option (Request → Except JSVal JSVal)) (req : Request)
    (pathParts : List String) (rm : String) :
    ∀ (routes : Routes) (le : JSVal),
      (tryMethods cb req pathParts rm routes le).lastErr
        = lastD (errorsOf (tryMethods cb req pathParts rm routes le).events) le := by
  intro routes
  induction routes with
  | nil => intro le; simp [tryMethods, errorsOf, lastD]
  | cons me rest ih =>
    obtain ⟨m, entry⟩ := me
    intro le
    by_cases hskip : m ≠ "*" ∧ m ≠ rm
    · simp only [tryMethods, if_pos hskip]
      exact ih le
    · simp only [tryMethods, if_neg hskip]
      cases hR : (tryPatterns cb req pathParts entry le).resp with
      | some r =>
        simp only [hR]
        exact tryPatterns_lastErr cb req pathParts entry le
      | none =>
        simp only [hR]
        rw [errorsOf_append, lastD_append, ← tryPatterns_lastErr cb req pathParts entry le]
        exact ih _

theorem dispatchScan_lastErr (r : Router) (req : Request) :
    (dispatchScan r req).lastErr
      = lastD (errorsOf (dispatchScan r req).events) JSVal.nullV :=
  tryMethods_lastErr _ _ _ _ _ _

theorem dispatch_events (r : Router) (req : Request) :
    (dispatch r req).2 = (dispatchScan r req).events := by
  unfold dispatch
  cases h : (dispatchScan r req).resp <;> simp [h]

theorem dispatch_of_resp_some (r : Router) (req : Request) (resp : JSVal)
    (h : (dispatchScan r req).resp = some resp) : (dispatch r req).1 = resp := by
  unfold dispatch
  simp [h]

theorem dispatch_of_resp_none (r : Router) (req : Request)
    (h : (dispatchScan r req).resp = none) :
    (dispatch r req).1
      = (if truthy (dispatchScan r req).lastErr
          then internalErrorResponse (dispatchScan r req).lastErr else notFoundResponse) := by
  unfold dispatch
  simp [h]

theorem matchSegments_spec :
    ∀ (rs ps : List String), rs.length = ps.length → ∀ (acc out : Params),
      (matchSegments rs ps acc = Except.ok (some out)
        ↔ (specSegsMatch rs ps = true ∧ out = specBinds rs ps acc)) := by
  intro rs
  induction rs with
  | nil =>
    intro ps hlen acc out
    cases ps with
    | nil => simp [matchSegments, specSegsMatch, specBinds, eq_comm]
    | cons p ps' => simp at hlen
  | cons r rs ih =>
    intro ps hlen acc out
    cases ps with
    | nil => simp at hlen
    | cons p ps' =>
      have hl : rs.length = ps'.length := by simpa using hlen
      by_cases hc : startsColon r
      · cases hd : decodeURIComponent p with
        | error e =>
          have hdo : decodeOk p = false := by simp [decodeOk, hd]
          simp [matchSegments, specSegsMatch, specBinds, hc, hd, hdo]
        | ok v =>
          have hdo : decodeOk p = true := by simp [decodeOk, hd]
          simp [matchSegments, specSegsMatch, specBinds, hc, hd, hdo, ih ps' hl]
      · by_cases he : r = p
        · subst he
          simp [matchSegments, specSegsMatch, specBinds, hc, ih ps' hl]
        · simp [matchSegments, specSegsMatch, specBinds, hc, he]

theorem attempt_handlerCall_params (cb : Option (Request → Except JSVal JSVal)) (req : Request)
    (params : Params) (h : Handler) (tag : Nat) (ps : Params) (c : Option JSVal)
    (hm : Event.handlerCall tag ps c ∈ (attempt cb req params h).2) : ps = params := by
  cases cb with
  | none =>
    cases hr : h.run req params none with
    | ok v => simp [attempt, hr] at hm; exact hm.2.1
    | error e => simp [attempt, hr] at hm; exact hm.2.1
  | some b =>
    cases hb : b req with
    | ok cv =>
      cases hr : h.run req params (some cv) with
      | ok v => simp [attempt, hb, hr] at hm; exact hm.2.1
      | error e => simp [attempt, hb, hr] at hm; exact hm.2.1
    | error e =>
      by_cases hresp : isResponse e
      · simp [attempt, hb, hresp] at hm
      · by_cases har : h.arity < 2
        · cases hr : h.run req params none with
          | ok v => simp [attempt, hb, hresp, har, hr] at hm; exact hm.2.1
          | error e2 => simp [attempt, hb, hresp, har, hr] at hm; exact hm.2.1
        · simp [attempt, hb, hresp, har] at hm

theorem attempt_handlerCall_ctx (b : Request → Except JSVal JSVal) (req : Request)
    (params : Params) (h : Handler) (v : JSVal) (tag : Nat) (ps : Params) (c : Option JSVal)
    (hb : b req = Except.ok v)
    (hm : Event.handlerCall tag ps c ∈ (attempt (some b) req params h).2) : c = some v := by
  cases hr : h.run req params (some v) with
  | ok r => simp [attempt, hb, hr] at hm; exact hm.2.2
  | error e => simp [attempt, hb, hr] at hm; exact hm.2.2

theorem tryHandlers_handlerCall_params (cb : Option (Request → Except JSVal JSVal))
    (req : Request) (params : Params) :
    ∀ (hs : List Handler) (le : JSVal) (tag : Nat) (ps : Params) (c : Option JSVal),
      Event.handlerCall tag ps c ∈ (tryHandlers cb req params hs le).events → ps = params := by
  intro hs
  induction hs with
  | nil => intro le tag ps c hm; simp [tryHandlers] at hm
  | cons h hs ih =>
    intro le tag ps c hm
    cases hA : attempt cb req params h with
    | mk fst evs =>
      cases fst with
      | respond r =>
        simp only [tryHandlers, hA] at hm
        exact attempt_handlerCall_params cb req params h tag ps c (by rw [hA]; exact hm)
      | fail e =>
        simp only [tryHandlers, hA] at hm
        rcases List.mem_append.mp hm with h1 | h2
        · exact attempt_handlerCall_params cb req params h tag ps c (by rw [hA]; exact h1)
        · exact ih e tag ps c h2

theorem tryHandlers_handlerCall_ctx (b : Request → Except JSVal JSVal)
    (req : Request) (params : Params) (v : JSVal) (hb : b req = Except.ok v) :
    ∀ (hs : List Handler) (le : JSVal) (tag : Nat) (ps : Params) (c : Option JSVal),
      Event.handlerCall tag ps c ∈ (tryHandlers (some b) req params hs le).events →
        c = some v := by
  intro hs
  induction hs with
  | nil => intro le tag ps c hm; simp [tryHandlers] at hm
  | cons h hs ih =>
    intro le tag ps c hm
    cases hA : attempt (some b) req params h with
    | mk fst evs =>
      cases fst with
      | respond r =>
        simp only [tryHandlers, hA] at hm
        exact attempt_handlerCall_ctx b req params h v tag ps c hb (by rw [hA]; exact hm)
      | fail e =>
        simp only [tryHandlers, hA] at hm
        rcases List.mem_append.mp hm with h1 | h2
        · exact attempt_handlerCall_ctx b req params h v tag ps c hb (by rw [hA]; exact h1)
        · exact ih e tag ps c h2

theorem tryPatterns_handlerCall_match (cb : Option (Request → Except JSVal JSVal))
    (req : Request) (pathParts : List String) :
    ∀ (entry : List (String × List Handler)) (le : JSVal) (tag : Nat) (ps : Params)
      (c : Option JSVal),
      Event.handlerCall tag ps c ∈ (tryPatterns cb req pathParts entry le).events →
        ∃ pat hs, (pat, hs) ∈ entry ∧ matchPattern pat pathParts = Except.ok (some ps) := by
  intro entry
  induction entry with
  | nil => intro le tag ps c hm; simp [tryPatterns] at hm
  | cons pe rest ih =>
    obtain ⟨pat, hs⟩ := pe
    intro le tag ps c hm
    cases hM : matchPattern pat pathParts with
    | error e =>
      simp only [tryPatterns, hM] at hm
      rcases List.mem_cons.mp hm with h1 | h2
      · cases h1
      · obtain ⟨pat', hs', hmem, hmatch⟩ := ih e tag ps c h2
        exact ⟨pat', hs', List.mem_cons_of_mem _ hmem, hmatch⟩
    | ok oparams =>
      cases oparams with
      | none =>
        simp only [tryPatterns, hM] at hm
        obtain ⟨pat', hs', hmem, hmatch⟩ := ih le tag ps c hm
        exact ⟨pat', hs', List.mem_cons_of_mem _ hmem, hmatch⟩
      | some params =>
        simp only [tryPatterns, hM] at hm
        cases hR : (tryHandlers cb req params hs le).resp with
        | some r =>
          rw [hR] at hm
          simp only at hm
          have hps : ps = params :=
            tryHandlers_handlerCall_params cb req params hs le tag ps c hm
          subst hps
          exact ⟨pat, hs, List.mem_cons_self _ _, hM⟩
        | none =>
          rw [hR] at hm
          simp only at hm
          rcases List.mem_append.mp hm with h1 | h2
          · have hps : ps = params :=
              tryHandlers_handlerCall_params cb req params hs le tag ps c h1
            subst hps
            exact ⟨pat, hs, List.mem_cons_self _ _, hM⟩
          · obtain ⟨pat', hs', hmem, hmatch⟩ := ih _ tag ps c h2
            exact ⟨pat', hs', List.mem_cons_of_mem _ hmem, hmatch⟩

theorem tryPatterns_handlerCall_ctx (b : Request → Except JSVal JSVal)
    (req : Request) (pathParts : List String) (v : JSVal) (hb : b req = Except.ok v) :
    ∀ (entry : List (String × List Handler)) (le : JSVal) (tag : Nat) (ps : Params)
      (c : Option JSVal),
      Event.handlerCall tag ps c ∈ (tryPatterns (some b) req pathParts entry le).events →
        c = some v := by
  intro entry
  induction entry with
  | nil => intro le tag ps c hm; simp [tryPatterns] at hm
  | cons pe rest ih =>
    obtain ⟨pat, hs⟩ := pe
    intro le tag ps c hm
    cases hM : matchPattern pat pathParts with
    | error e =>
      simp only [tryPatterns, hM] at hm
      rcases List.mem_cons.mp hm with h1 | h2
      · cases h1
      · exact ih e tag ps c h2
    | ok oparams =>
      cases oparams with
      | none =>
        simp only [tryPatterns, hM] at hm
        exact ih le tag ps c hm
      | some params =>
        simp only [tryPatterns, hM] at hm
        cases hR : (tryHandlers (some b) req params hs le).resp with
        | some r =>
          rw [hR] at hm
          simp only at hm
          exact tryHandlers_handlerCall_ctx b req params v hb hs le tag ps c hm
        | none =>
          rw [hR] at hm
          simp only at hm
          rcases List.mem_append.mp hm with h1 | h2
          · exact tryHandlers_handlerCall_ctx b req params v hb hs le tag ps c h1
          · exact ih _ tag ps c h2

theorem tryMethods_handlerCall_match (cb : Option (Request → Except JSVal JSVal))
    (req : Request) (pathParts : List String) (rm : String) :
    ∀ (routes : Routes) (le : JSVal) (tag : Nat) (ps : Params) (c : Option JSVal),
      Event.handlerCall tag ps c ∈ (tryMethods cb req pathParts rm routes le).events →
        ∃ m entry pat hs, (m, entry) ∈ routes ∧ (pat, hs) ∈ entry
          ∧ matchPattern pat pathParts = Except.ok (some ps) := by
  intro routes
  induction routes with
  | nil => intro le tag ps c hm; simp [tryMethods] at hm
  | cons me rest ih =>
    obtain ⟨m, entry⟩ := me
    intro le tag ps c hm
    by_cases hskip : m ≠ "*" ∧ m ≠ rm
    · simp only [tryMethods, if_pos hskip] at hm
      obtain ⟨m', entry', pat', hs', hmem, hmem2, hmatch⟩ := ih le tag ps c hm
      exact ⟨m', entry', pat', hs', List.mem_cons_of_mem _ hmem, hmem2, hmatch⟩
    · simp only [tryMethods, if_neg hskip] at hm
      cases hR : (tryPatterns cb req pathParts entry le).resp with
      | some r =>
        rw [hR] at hm
        simp only at hm
        obtain ⟨pat', hs', hmem2, hmatch⟩ :=
          tryPatterns_handlerCall_match cb req pathParts entry le tag ps c hm
        exact ⟨m, entry, pat', hs', List.mem_cons_self _ _, hmem2, hmatch⟩
      | none =>
        rw [hR] at hm
        simp only at hm
        rcases List.mem_append.mp hm with h1 | h2
        · obtain ⟨pat', hs', hmem2, hmatch⟩ :=
            tryPatterns_handlerCall_match cb req pathParts entry le tag ps c h1
          exact ⟨m, entry, pat', hs', List.mem_cons_self _ _, hmem2, hmatch⟩
        · obtain ⟨m', entry', pat', hs', hmem, hmem2, hmatch⟩ := ih _ tag ps c h2
          exact ⟨m', entry', pat', hs', List.mem_cons_of_mem _ hmem, hmem2, hmatch⟩

theorem tryMethods_handlerCall_ctx (b : Request → Except JSVal JSVal)
    (req : Request) (pathParts : List String) (rm : String) (v : JSVal)
    (hb : b req = Except.ok v) :
    ∀ (routes : Routes) (le : JSVal) (tag : Nat) (ps : Params) (c : Option JSVal),
      Event.handlerCall tag ps c ∈ (tryMethods (some b) req pathParts rm routes le).events →
        c = some v := by
  intro routes
  induction routes with
  | nil => intro le tag ps c hm; simp [tryMethods] at hm
  | cons me rest ih =>
    obtain ⟨m, entry⟩ := me
    intro le tag ps c hm
    by_cases hskip : m ≠ "*" ∧ m ≠ rm
    · simp only [tryMethods, if_pos hskip] at hm
      exact ih le tag ps c hm
    · simp only [tryMethods, if_neg hskip] at hm
      cases hR : (tryPatterns (some b) req pathParts entry le).resp with
      | some r =>
        rw [hR] at hm
        simp only at hm
        exact tryPatterns_handlerCall_ctx b req pathParts v hb entry le tag ps c hm
      | none =>
        rw [hR] at hm
        simp only at hm
        rcases List.mem_append.mp hm with h1 | h2
        · exact tryPatterns_handlerCall_ctx b req pathParts v hb entry le tag ps c h1
        · exact ih _ tag ps c h2

theorem builderCalls_append (a b : List Event) :
    builderCalls (a ++ b) = builderCalls a + builderCalls b := by
  simp [builderCalls, List.countP_append]

theorem handlerCalls_append (a b : List Event) :
    handlerCalls (a ++ b) = handlerCalls a + handlerCalls b := by
  simp [handlerCalls, List.countP_append]

theorem attempt_shortCircuit (b : Request → Except JSVal JSVal) (req : Request)
    (params : Params) (h : Handler) (e : JSVal) (hb : b req = Except.error e)
    (hresp : isResponse e = true) :
    attempt (some b) req params h = (AttemptOut.respond e, [Event.builderCall]) := by
  simp [attempt, hb, hresp]

theorem tryHandlers_shortCircuit (b : Request → Except JSVal JSVal) (req : Request)
    (params : Params) (e : JSVal) (hb : b req = Except.error e) (hresp : isResponse e = true)
    (hs : List Handler) (le : JSVal) (hne : hs ≠ []) :
    tryHandlers (some b) req params hs le = ⟨some e, le, [Event.builderCall]⟩ := by
  cases hs with
  | nil => exact absurd rfl hne
  | cons h t => simp [tryHandlers, attempt_shortCircuit b req params h e hb hresp]

theorem tryPatterns_shortCircuit (b : Request → Except JSVal JSVal) (req : Request)
    (pathParts : List String) (e : JSVal) (hb : b req = Except.error e)
    (hresp : isResponse e = true) :
    ∀ (entry : List (String × List Handler)) (le : JSVal),
      handlerCalls (tryPatterns (some b) req pathParts entry le).events = 0
      ∧ (Event.builderCall ∈ (tryPatterns (some b) req pathParts entry le).events →
          (tryPatterns (some b) req pathParts entry le).resp = some e
          ∧ builderCalls (tryPatterns (some b) req pathParts entry le).events = 1) := by
  intro entry
  induction entry with
  | nil => intro le; simp [tryPatterns, handlerCalls, builderCalls]
  | cons pe rest ih =>
    obtain ⟨pat, hs⟩ := pe
    intro le
    cases hM : matchPattern pat pathParts with
    | error e0 =>
      obtain ⟨ih1, ih2⟩ := ih e0
      simp only [tryPatterns, hM]
      constructor
      · simp [handlerCalls, List.countP_cons] at ih1 ⊢
        exact ih1
      · intro hmem
        have hmem' : Event.builderCall ∈ (tryPatterns (some b) req pathParts rest e0).events := by
          rcases List.mem_cons.mp hmem with h1 | h2
          · cases h1
          · exact h2
        obtain ⟨hr, hc⟩ := ih2 hmem'
        refine ⟨hr, ?_⟩
        simp [builderCalls, List.countP_cons] at hc ⊢
        exact hc
    | ok oparams =>
      cases oparams with
      | none =>
        simp only [tryPatterns, hM]
        exact ih le
      | some params =>
        cases hs with
        | nil =>
          obtain ⟨ih1, ih2⟩ := ih le
          simp only [tryPatterns, hM, tryHandlers]
          simp only [List.nil_append]
          exact ⟨ih1, ih2⟩
        | cons h t =>
          have htr := tryHandlers_shortCircuit b req params e hb hresp (h :: t) le (by simp)
          simp only [tryPatterns, hM, htr]
          constructor
          · simp [handlerCalls, List.countP_cons, List.countP_nil]
          · intro _
            exact ⟨by trivial, by simp [builderCalls, List.countP_cons, List.countP_nil]⟩

theorem builderCalls_eq_zero (evs : List Event) (h : Event.builderCall ∉ evs) :
    builderCalls evs = 0 := by
  rw [builderCalls, List.countP_eq_zero]
  intro a ha
  cases a with
  | builderCall => exact absurd ha h
  | handlerCall t ps c => simp
  | errRecorded e => simp

theorem tryMethods_shortCircuit (b : Request → Except JSVal JSVal) (req : Request)
    (pathParts : List String) (rm : String) (e : JSVal) (hb : b req = Except.error e)
    (hresp : isResponse e = true) :
    ∀ (routes : Routes) (le : JSVal),
      handlerCalls (tryMethods (some b) req pathParts rm routes le).events = 0
      ∧ (Event.builderCall ∈ (tryMethods (some b) req pathParts rm routes le).events →
          (tryMethods (some b) req pathParts rm routes le).resp = some e
          ∧ builderCalls (tryMethods (some b) req pathParts rm routes le).events = 1) := by
  intro routes
  induction routes with
  | nil => intro le; simp [tryMethods, handlerCalls, builderCalls]
  | cons me rest ih =>
    obtain ⟨m, entry⟩ := me
    intro le
    by_cases hskip : m ≠ "*" ∧ m ≠ rm
    · simp only [tryMethods, if_pos hskip]
      exact ih le
    · obtain ⟨hp1, hp2⟩ := tryPatterns_shortCircuit b req pathParts e hb hresp entry le
      cases hR : (tryPatterns (some b) req pathParts entry le).resp with
      | some r =>
        have hstep : tryMethods (some b) req pathParts rm ((m, entry) :: rest) le
            = tryPatterns (some b) req pathParts entry le := by
          simp only [tryMethods, if_neg hskip]
          rw [hR]
        rw [hstep]
        exact ⟨hp1, hp2⟩
      | none =>
        have hstep : tryMethods (some b) req pathParts rm ((m, entry) :: rest) le
            = ⟨(tryMethods (some b) req pathParts rm rest
                  (tryPatterns (some b) req pathParts entry le).lastErr).resp,
               (tryMethods (some b) req pathParts rm rest
                  (tryPatterns (some b) req pathParts entry le).lastErr).lastErr,
               (tryPatterns (some b) req pathParts entry le).events
                 ++ (tryMethods (some b) req pathParts rm rest
                      (tryPatterns (some b) req pathParts entry le).lastErr).events⟩ := by
          simp only [tryMethods, if_neg hskip]
          rw [hR]
        rw [hstep]
        obtain ⟨ih1, ih2⟩ := ih (tryPatterns (some b) req pathParts entry le).lastErr
        have hnotmem : Event.builderCall ∉ (tryPatterns (some b) req pathParts entry le).events := by
          intro hmem1
          obtain ⟨hr0, -⟩ := hp2 hmem1
          rw [hR] at hr0
          cases hr0
        constructor
        · dsimp only
          rw [handlerCalls_append, hp1, ih1]
        · intro hmem
          dsimp only at hmem
          rcases List.mem_append.mp hmem with h1 | h2
          · exact absurd h1 hnotmem
          · obtain ⟨hr, hc⟩ := ih2 h2
            refine ⟨hr, ?_⟩
            dsimp only
            rw [builderCalls_append, hc, builderCalls_eq_zero _ hnotmem]

theorem pairedAux_append (a b : List Event) (p : Bool) :
    pairedAux p (a ++ b) = (pairedAux p a && pairedAux (pairedState p a) b) := by
  induction a generalizing p with
  | nil => simp [pairedAux, pairedState]
  | cons ev t ih =>
    cases ev with
    | builderCall => simp [pairedAux, pairedState, ih]
    | handlerCall tag ps c => simp [pairedAux, pairedState, ih, Bool.and_assoc]
    | errRecorded e => simp [pairedAux, pairedState, ih]

theorem attempt_paired (b : Request → Except JSVal JSVal) (req : Request) (params : Params)
    (h : Handler) (s : Bool) : pairedAux s (attempt (some b) req params h).2 = true := by
  cases hb : b req with
  | ok c =>
    cases hr : h.run req params (some c) with
    | ok r => simp [attempt, hb, hr, pairedAux]
    | error e => simp [attempt, hb, hr, pairedAux]
  | error e =>
    by_cases hresp : isResponse e
    · simp [attempt, hb, hresp, pairedAux]
    · by_cases har : h.arity < 2
      · cases hr : h.run req params none with
        | ok r => simp [attempt, hb, hresp, har, hr, pairedAux]
        | error e2 => simp [attempt, hb, hresp, har, hr, pairedAux]
      · simp [attempt, hb, hresp, har, pairedAux]

theorem tryHandlers_paired (b : Request → Except JSVal JSVal) (req : Request)
    (params : Params) :
    ∀ (hs : List Handler) (le : JSVal) (s : Bool),
      pairedAux s (tryHandlers (some b) req params hs le).events = true := by
  intro hs
  induction hs with
  | nil => intro le s; simp [tryHandlers, pairedAux]
  | cons h t ih =>
    intro le s
    cases hA : attempt (some b) req params h with
    | mk fst evs =>
      have hp := attempt_paired b req params h s
      rw [hA] at hp
      cases fst with
      | respond r =>
        simp only [tryHandlers, hA]
        exact hp
      | fail e =>
        simp only [tryHandlers, hA]
        rw [pairedAux_append, hp, ih e (pairedState s evs)]
        rfl

theorem tryPatterns_paired (b : Request → Except JSVal JSVal) (req : Request)
    (pathParts : List String) :
    ∀ (entry : List (String × List Handler)) (le : JSVal) (s : Bool),
      pairedAux s (tryPatterns (some b) req pathParts entry le).events = true := by
  intro entry
  induction entry with
  | nil => intro le s; simp [tryPatterns, pairedAux]
  | cons pe rest ih =>
    obtain ⟨pat, hs⟩ := pe
    intro le s
    cases hM : matchPattern pat pathParts with
    | error e =>
      simp only [tryPatterns, hM, pairedAux]
      exact ih e false
    | ok oparams =>
      cases oparams with
      | none =>
        simp only [tryPatterns, hM]
        exact ih le s
      | some params =>
        simp only [tryPatterns, hM]
        cases hR : (tryHandlers (some b) req params hs le).resp with
        | some r =>
          simp only [hR]
          exact tryHandlers_paired b req params hs le s
        | none =>
          simp only [hR]
          rw [pairedAux_append, tryHandlers_paired b req params hs le s, ih _ _]
          rfl

theorem tryMethods_paired (b : Request → Except JSVal JSVal) (req : Request)
    (pathParts : List String) (rm : String) :
    ∀ (routes : Routes) (le : JSVal) (s : Bool),
      pairedAux s (tryMethods (some b) req pathParts rm routes le).events = true := by
  intro routes
  induction routes with
  | nil => intro le s; simp [tryMethods, pairedAux]
  | cons me rest ih =>
    obtain ⟨m, entry⟩ := me
    intro le s
    by_cases hskip : m ≠ "*" ∧ m ≠ rm
    · simp only [tryMethods, if_pos hskip]
      exact ih le s
    · simp only [tryMethods, if_neg hskip]
      cases hR : (tryPatterns (some b) req pathParts entry le).resp with
      | some r =>
        simp only [hR]
        exact tryPatterns_paired b req pathParts entry le s
      | none =>
        simp only [hR]
        rw [pairedAux_append, tryPatterns_paired b req pathParts entry le s, ih _ _]
        rfl

theorem tryMethods_filter (cb : Option (Request → Except JSVal JSVal)) (req : Request)
    (pathParts : List String) (rm : String) :
    ∀ (routes : Routes) (le : JSVal),
      tryMethods cb req pathParts rm routes le
        = scanBuckets cb req pathParts (routes.filter fun bkt => eligible rm bkt.1) le := by
  intro routes
  induction routes with
  | nil => intro le; simp [tryMethods, scanBuckets]
  | cons me rest ih =>
    obtain ⟨m, entry⟩ := me
    intro le
    by_cases hskip : m ≠ "*" ∧ m ≠ rm
    · have hel : (eligible rm m) = false := by
        simp only [eligible, Bool.or_eq_false_iff, beq_eq_false_iff_ne]
        exact hskip
      simp only [tryMethods, if_pos hskip, List.filter_cons, hel]
      simp only [Bool.false_eq_true, if_false]
      exact ih le
    · have hel : (eligible rm m) = true := by
        simp only [eligible, Bool.or_eq_true, beq_iff_eq]
        by_contra hcon
        push_neg at hcon
        exact hskip ⟨hcon.1, hcon.2⟩
      simp only [tryMethods, if_neg hskip, List.filter_cons, hel, if_true, scanBuckets]
      cases hR : (tryPatterns cb req pathParts entry le).resp with
      | some r => simp only [hR]
      | none =>
        simp only [hR]
        rw [ih _]

theorem lastD_falsy :
    ∀ (l : List JSVal) (d : JSVal), truthy d = false → (∀ e ∈ l, truthy e = false) →
      truthy (lastD l d) = false := by
  intro l
  induction l with
  | nil => intro d hd _; simpa [lastD] using hd
  | cons x xs ih =>
    intro d _ hall
    rw [lastD_cons]
    exact ih x (hall x (List.mem_cons_self _ _)) (fun e he => hall e (List.mem_cons_of_mem _ he))

theorem attempt_invokes_noCb (req : Request) (params : Params) (h : Handler) :
    Event.handlerCall h.tag params none ∈ (attempt none req params h).2 := by
  cases hr : h.run req params none with
  | ok v => simp [attempt, hr]
  | error e => simp [attempt, hr]

theorem attempt_invokes_okCb (b : Request → Except JSVal JSVal) (req : Request)
    (params : Params) (h : Handler) (v : JSVal) (hb : b req = Except.ok v) :
    Event.handlerCall h.tag params (some v) ∈ (attempt (some b) req params h).2 := by
  cases hr : h.run req params (some v) with
  | ok r => simp [attempt, hb, hr]
  | error e => simp [attempt, hb, hr]

theorem attempt_invokes_fallback (b : Request → Except JSVal JSVal) (req : Request)
    (params : Params) (h : Handler) (e : JSVal) (hb : b req = Except.error e)
    (hresp : isResponse e = false) (har : h.arity < 2) :
    Event.handlerCall h.tag params none ∈ (attempt (some b) req params h).2 := by
  cases hr : h.run req params none with
  | ok r => simp [attempt, hb, hresp, har, hr]
  | error e2 => simp [attempt, hb, hresp, har, hr]

theorem attempt_fail_noCb (req : Request) (params : Params) (h : Handler) (e : JSVal)
    (hr : h.run req params none = Except.error e) :
    attempt none req params h
      = (AttemptOut.fail e, [Event.handlerCall h.tag params none, Event.errRecorded e]) := by
  simp [attempt, hr]

theorem attempt_fail_okCb (b : Request → Except JSVal JSVal) (req : Request)
    (params : Params) (h : Handler) (v e : JSVal) (hb : b req = Except.ok v)
    (hr : h.run req params (some v) = Except.error e) :
    attempt (some b) req params h
      = (AttemptOut.fail e,
          [Event.builderCall, Event.handlerCall h.tag params (some v), Event.errRecorded e]) := by
  simp [attempt, hb, hr]

theorem attempt_fail_fallback (b : Request → Except JSVal JSVal) (req : Request)
    (params : Params) (h : Handler) (e e1 : JSVal) (hb : b req = Except.error e)
    (hresp : isResponse e = false) (har : h.arity < 2)
    (hr : h.run req params none = Except.error e1) :
    attempt (some b) req params h
      = (AttemptOut.fail e1,
          [Event.builderCall, Event.handlerCall h.tag params none, Event.errRecorded e1]) := by
  simp [attempt, hb, hresp, har, hr]

theorem tryHandlers_mem_head (cb : Option (Request → Except JSVal JSVal)) (req : Request)
    (params : Params) (h : Handler) (hs : List Handler) (le : JSVal) (x : Event)
    (hx : x ∈ (attempt cb req params h).2) :
    x ∈ (tryHandlers cb req params (h :: hs) le).events := by
  cases hA : attempt cb req params h with
  | mk fst evs =>
    rw [hA] at hx
    cases fst with
    | respond r =>
      simp only [tryHandlers, hA]
      exact hx
    | fail e =>
      simp only [tryHandlers, hA]
      exact List.mem_append_left _ hx

theorem tryHandlers_second (cb : Option (Request → Except JSVal JSVal)) (req : Request)
    (params : Params) (h1 h2 : Handler) (hs : List Handler) (le e : JSVal) (evs1 : List Event)
    (hA : attempt cb req params h1 = (AttemptOut.fail e, evs1)) (x : Event)
    (hx : x ∈ (attempt cb req params h2).2) :
    x ∈ (tryHandlers cb req params (h1 :: h2 :: hs) le).events := by
  simp only [tryHandlers, hA]
  exact List.mem_append_right _ (tryHandlers_mem_head cb req params h2 hs e x hx)

/-- C1: a request path, normalized to slash plus authority plus pathname and
split on slashes, matches a pattern exactly when the pattern has the same
number of segments and each pattern segment either is a colon parameter
binding the decoded request segment or equals it exactly; a different
segment count never matches; and every handler invocation of a dispatch
receives exactly the decoded bindings of a registered pattern that matches
the request path. -/
theorem c1_path_matching :
    (∀ (pattern : String) (parts : List String) (out : Params),
      matchPattern pattern parts = Except.ok (some out)
        ↔ ((splitSlash pattern).length = parts.length
            ∧ specSegsMatch (splitSlash pattern) parts = true
            ∧ out = specBinds (splitSlash pattern) parts []))
    ∧ (∀ (pattern : String) (parts : List String),
        (splitSlash pattern).length ≠ parts.length →
          matchPattern pattern parts = Except.ok none)
    ∧ (∀ (r : Router) (req : Request) (tag : Nat) (ps : Params) (c : Option JSVal),
        Event.handlerCall tag ps c ∈ (dispatch r req).2 →
          ∃ pat, registeredPattern r.routes pat
            ∧ matchPattern pat (pathPartsOf req) = Except.ok (some ps)) := by
  refine ⟨?_, ?_, ?_⟩
  · intro pattern parts out
    by_cases hl : (splitSlash pattern).length = parts.length
    · have hms := matchSegments_spec (splitSlash pattern) parts hl [] out
      simp only [matchPattern]
      rw [if_neg (by simp [hl])]
      rw [hms]
      simp [hl]
    · simp only [matchPattern]
      rw [if_pos hl]
      simp [hl]
  · intro pattern parts hne
    simp only [matchPattern]
    rw [if_pos hne]
  · intro r req tag ps c hm
    rw [dispatch_events] at hm
    obtain ⟨m, entry, pat, hs, hmem, hmem2, hmatch⟩ :=
      tryMethods_handlerCall_match r.ctxBuilder req (pathPartsOf req) (methodOf req)
        r.routes JSVal.nullV tag ps c hm
    exact ⟨pat, ⟨m, entry, hs, hmem, hmem2⟩, hmatch⟩

/-- Witness for C1 at the pattern slash user slash colon id and the request
GET with host user and pathname slash 42. -/
theorem c1_path_matching_witness :
    matchPattern "/user/:id" (pathPartsOf reqUser42) = Except.ok (some [("id", "42")])
    ∧ matchPattern "/user/:id" ["", "user"] = Except.ok none := by
  constructor
  · exact (c1_path_matching.1 "/user/:id" (pathPartsOf reqUser42) [("id", "42")]).mpr
      ⟨rfl, rfl, rfl⟩
  · exact c1_path_matching.2.1 "/user/:id" ["", "user"] (by decide)

/-- C2 as frozen is refuted: with a context builder that fails with a
non-response error, a first handler of declared arity below two that is
invoked and throws, and a second handler of declared arity two, the second
handler registered under the same method and pattern is never invoked. -/
theorem c2_counterexample :
    callsTag (dispatch rC2x reqX).2 1 = true
    ∧ callsTag (dispatch rC2x reqX).2 2 = false
    ∧ Event.errRecorded (JSVal.strV "h1boom") ∈ (dispatch rC2x reqX).2 := by
  refine ⟨by rfl, by rfl, by decide⟩

/-- C2 amended: registration appends to the handler list of the method and
pattern key, and at dispatch the handlers of a matched pattern are tried in
registration order: when the first handler throws, the second is invoked
with the same request and params provided there is no context builder, or
the context builder succeeds, or it fails with a non-response error while
both handlers declare fewer than two parameters. -/
theorem c2_registration_order :
    (∀ (routes : Routes) (m p : String) (hnd : Handler),
      getHandlers (addRoute routes m p hnd) m p = getHandlers routes m p ++ [hnd])
    ∧ (∀ (req : Request) (params : Params) (h1 h2 : Handler) (hs : List Handler) (le e : JSVal),
        h1.run req params none = Except.error e →
        Event.handlerCall h2.tag params none
          ∈ (tryHandlers none req params (h1 :: h2 :: hs) le).events)
    ∧ (∀ (b : Request → Except JSVal JSVal) (req : Request) (params : Params)
        (h1 h2 : Handler) (hs : List Handler) (le v e : JSVal),
        b req = Except.ok v → h1.run req params (some v) = Except.error e →
        Event.handlerCall h2.tag params (some v)
          ∈ (tryHandlers (some b) req params (h1 :: h2 :: hs) le).events)
    ∧ (∀ (b : Request → Except JSVal JSVal) (req : Request) (params : Params)
        (h1 h2 : Handler) (hs : List Handler) (le e e1 : JSVal),
        b req = Except.error e → isResponse e = false → h1.arity < 2 → h2.arity < 2 →
        h1.run req params none = Except.error e1 →
        Event.handlerCall h2.tag params none
          ∈ (tryHandlers (some b) req params (h1 :: h2 :: hs) le).events) := by
  refine ⟨getHandlers_addRoute_self, ?_, ?_, ?_⟩
  · intro req params h1 h2 hs le e hr
    exact tryHandlers_second none req params h1 h2 hs le e _
      (attempt_fail_noCb req params h1 e hr) _ (attempt_invokes_noCb req params h2)
  · intro b req params h1 h2 hs le v e hb hr
    exact tryHandlers_second (some b) req params h1 h2 hs le e _
      (attempt_fail_okCb b req params h1 v e hb hr) _ (attempt_invokes_okCb b req params h2 v hb)
  · intro b req params h1 h2 hs le e e1 hb hresp har1 har2 hr
    exact tryHandlers_second (some b) req params h1 h2 hs le e1 _
      (attempt_fail_fallback b req params h1 e e1 hb hresp har1 hr) _
      (attempt_invokes_fallback b req params h2 e hb hresp har2)

/-- Witness for the amended C2 with a throwing first handler and no context
builder. -/
theorem c2_registration_order_witness :
    Event.handlerCall 2 [] none
      ∈ (tryHandlers none reqX [] [hThrow 1 (JSVal.strV "first"), hOk 2 ok200]
          JSVal.nullV).events := by
  exact c2_registration_order.2.1 reqX [] (hThrow 1 (JSVal.strV "first")) (hOk 2 ok200) []
    JSVal.nullV (JSVal.strV "first") rfl

/-- C3 as frozen is refuted: a dispatch that recorded the truthy error boom
and then the falsy error null returns the not-found response, not the
internal-error response. -/
theorem c3_counterexample :
    (dispatchScan rC3x reqX).resp = none
    ∧ errorsOf (dispatchScan rC3x reqX).events ≠ []
    ∧ (dispatch rC3x reqX).1 = notFoundResponse
    ∧ notFoundResponse
        ≠ internalErrorResponse (lastD (errorsOf (dispatchScan rC3x reqX).events) JSVal.nullV) := by
  refine ⟨by rfl, by decide, by rfl, by decide⟩

/-- C3 amended: when the scan is exhausted without a response and the most
recently recorded error is truthy, the dispatch returns the status 500
internal-error response carrying exactly that last recorded error, in
preference to the not-found response; earlier recorded errors are
discarded. -/
theorem c3_last_error_truthy (r : Router) (req : Request)
    (hnone : (dispatchScan r req).resp = none)
    (htruthy : truthy (lastD (errorsOf (dispatchScan r req).events) JSVal.nullV) = true) :
    (dispatch r req).1
      = internalErrorResponse (lastD (errorsOf (dispatchScan r req).events) JSVal.nullV) := by
  rw [dispatch_of_resp_none r req hnone, dispatchScan_lastErr, if_pos htruthy]

/-- Witness for the amended C3 with a single handler throwing the truthy
string boom. -/
theorem c3_last_error_truthy_witness :
    (dispatch rC3w reqX).1 = internalErrorResponse (JSVal.strV "boom") := by
  exact c3_last_error_truthy rC3w reqX rfl rfl

/-- C4: when the context builder of the router throws a pre-formed response
and any handler attempt occurs, that exact response is the dispatch result,
with exactly one context-builder invocation and no handler invocation at
all. -/
theorem c4_short_circuit (r : Router) (req : Request) (b : Request → Except JSVal JSVal)
    (e : JSVal) (hcb : r.ctxBuilder = some b) (hb : b req = Except.error e)
    (hresp : isResponse e = true) (hmem : Event.builderCall ∈ (dispatch r req).2) :
    (dispatch r req).1 = e ∧ builderCalls (dispatch r req).2 = 1
    ∧ handlerCalls (dispatch r req).2 = 0 := by
  have hscan : dispatchScan r req
      = tryMethods (some b) req (pathPartsOf req) (methodOf req) r.routes JSVal.nullV := by
    simp only [dispatchScan, hcb]
  obtain ⟨h0, h1⟩ :=
    tryMethods_shortCircuit b req (pathPartsOf req) (methodOf req) e hb hresp
      r.routes JSVal.nullV
  rw [dispatch_events, hscan] at hmem
  obtain ⟨hrsp, hcount⟩ := h1 hmem
  refine ⟨?_, ?_, ?_⟩
  · exact dispatch_of_resp_some r req e (by rw [hscan]; exact hrsp)
  · rw [dispatch_events, hscan]
    exact hcount
  · rw [dispatch_events, hscan]
    exact h0

/-- Witness for C4 with a context builder that always throws a pre-formed
401 response over two registered handlers. -/
theorem c4_short_circuit_witness :
    (dispatch rC4x reqX).1 = resp401 ∧ builderCalls (dispatch rC4x reqX).2 = 1
    ∧ handlerCalls (dispatch rC4x reqX).2 = 0 := by
  exact c4_short_circuit rC4x reqX _ resp401 rfl rfl rfl (by decide)

/-- C5: a dispatch exhausted without any response and without any recorded
error returns exactly the status 404 response with body message Not
found. -/
theorem c5_not_found (r : Router) (req : Request)
    (hnone : (dispatchScan r req).resp = none)
    (herr : errorsOf (dispatchScan r req).events = []) :
    (dispatch r req).1 = JSVal.respJson 404 (JSVal.objMsg "Not found") := by
  rw [dispatch_of_resp_none r req hnone, dispatchScan_lastErr, herr]
  rfl

/-- Witness for C5 with a GET route on slash x and a request on host y. -/
theorem c5_not_found_witness :
    (dispatch rC5x reqY).1 = JSVal.respJson 404 (JSVal.objMsg "Not found") := by
  exact c5_not_found rC5x reqY rfl rfl

/-- C6 as frozen is refuted: on a router with a context builder, one
dispatched request whose first handler throws invokes the context builder
twice, not at most once. -/
theorem c6_counterexample :
    rC6x.ctxBuilder.isSome = true ∧ builderCalls (dispatch rC6x reqUser42).2 = 2 := by
  exact ⟨rfl, by rfl⟩

/-- C6 amended: the context builder is invoked once per handler attempt
rather than once per dispatched request: every handler invocation in the
trace is immediately preceded by its own context-builder invocation, and
when the builder produces a value, that value is the context each handler
receives. -/
theorem c6_context_per_attempt (r : Router) (req : Request)
    (b : Request → Except JSVal JSVal) (hcb : r.ctxBuilder = some b) :
    handlerCallsPaired (dispatch r req).2 = true
    ∧ (∀ (tag : Nat) (ps : Params) (c : Option JSVal) (v : JSVal),
        Event.handlerCall tag ps c ∈ (dispatch r req).2 → b req = Except.ok v →
          c = some v) := by
  have hscan : dispatchScan r req
      = tryMethods (some b) req (pathPartsOf req) (methodOf req) r.routes JSVal.nullV := by
    simp only [dispatchScan, hcb]
  constructor
  · rw [dispatch_events, hscan]
    exact tryMethods_paired b req _ _ r.routes JSVal.nullV false
  · intro tag ps c v hm hbv
    rw [dispatch_events, hscan] at hm
    exact tryMethods_handlerCall_ctx b req _ _ v hbv r.routes JSVal.nullV tag ps c hm

/-- Witness for the amended C6 on the fixture with a succeeding builder and
a throwing first handler. -/
theorem c6_context_per_attempt_witness :
    handlerCallsPaired (dispatch rC6x reqUser42).2 = true := by
  exact (c6_context_per_attempt rC6x reqUser42 _ rfl).1

/-- C7: the on registration stores under the star key; the method loop is
the unfiltered scan of exactly the buckets whose key is the star wildcard or
the request method; and concretely a wildcard handler serves both GET and
POST while a method-specific handler stays eligible beside a wildcard
one. -/
theorem c7_wildcard_alongside :
    (∀ (r : Router) (p : String) (h : Handler),
      getHandlers ((r.on p h).routes) "*" p = getHandlers r.routes "*" p ++ [h])
    ∧ (∀ (cb : Option (Request → Except JSVal JSVal)) (req : Request)
        (pathParts : List String) (rm : String) (routes : Routes) (le : JSVal),
        tryMethods cb req pathParts rm routes le
          = scanBuckets cb req pathParts (routes.filter fun bkt => eligible rm bkt.1) le)
    ∧ (dispatch rC7w reqAnyGet).1 = ok200
    ∧ (dispatch rC7w reqAnyPost).1 = ok200
    ∧ (dispatch rC7x reqAnyGet).1 = ok200
    ∧ callsTag (dispatch rC7x reqAnyGet).2 2 = true := by
  refine ⟨?_, ?_, by rfl, by rfl, by rfl, by rfl⟩
  · intro r p h
    exact getHandlers_addRoute_self r.routes "*" p h
  · intro cb req pathParts rm routes le
    exact tryMethods_filter cb req pathParts rm routes le

/-- C8: binding a router with an empty route table returns the
configuration error value and installs nothing, while binding a router with
at least one bucket installs exactly the dispatcher for the scheme. -/
theorem c8_register_guard :
    (∀ (cb : Option (Request → Except JSVal JSVal)) (p : Protocol) (s : String),
      Router.register ⟨[], cb⟩ p s = RegisterResult.errorV (JSVal.errorObj noHandlersMsg))
    ∧ (∀ (cb : Option (Request → Except JSVal JSVal))
        (bkt : String × List (String × List Handler)) (rest : Routes) (p : Protocol)
        (s : String),
        Router.register ⟨bkt :: rest, cb⟩ p s
          = RegisterResult.ok ⟨p.handlers ++ [(s, dispatch ⟨bkt :: rest, cb⟩)]⟩) := by
  constructor
  · intro cb p s
    rfl
  · intro cb bkt rest p s
    simp [Router.register]

/-- C9: the route-table invariant that every present key holds a non-empty
handler list is preserved by all ten registration operations, and every
registration appends to exactly its own key, leaving all other keys
unchanged. -/
theorem c9_route_table_invariant :
    (∀ (r : Router) (p : String) (h : Handler), routesWF r.routes →
      routesWF (r.get p h).routes ∧ routesWF (r.post p h).routes
      ∧ routesWF (r.put p h).routes ∧ routesWF (r.delete p h).routes
      ∧ routesWF (r.patch p h).routes ∧ routesWF (r.head p h).routes
      ∧ routesWF (r.options p h).routes ∧ routesWF (r.trace p h).routes
      ∧ routesWF (r.connect p h).routes ∧ routesWF (r.on p h).routes)
    ∧ (∀ (routes : Routes) (m p : String) (hnd : Handler),
        getHandlers (addRoute routes m p hnd) m p = getHandlers routes m p ++ [hnd])
    ∧ (∀ (routes : Routes) (m p : String) (hnd : Handler) (m' p' : String),
        m' ≠ m ∨ p' ≠ p →
        getHandlers (addRoute routes m p hnd) m' p' = getHandlers routes m' p') := by
  refine ⟨?_, getHandlers_addRoute_self, getHandlers_addRoute_other⟩
  intro r p h wf
  exact ⟨routesWF_addRoute _ _ _ wf, routesWF_addRoute _ _ _ wf, routesWF_addRoute _ _ _ wf,
    routesWF_addRoute _ _ _ wf, routesWF_addRoute _ _ _ wf, routesWF_addRoute _ _ _ wf,
    routesWF_addRoute _ _ _ wf, routesWF_addRoute _ _ _ wf, routesWF_addRoute _ _ _ wf,
    routesWF_addRoute _ _ _ wf⟩

/-- Witness for C9 on a fresh router and a concrete registration. -/
theorem c9_route_table_invariant_witness :
    routesWF ((mkRouter none).get "/x" (hOk 1 ok200)).routes
    ∧ getHandlers (addRoute [] "GET" "/x" (hOk 1 ok200)) "POST" "/x"
        = getHandlers [] "POST" "/x" := by
  constructor
  · exact (c9_route_table_invariant.1 (mkRouter none) "/x" (hOk 1 ok200)
      (by intro m entry hEq; exact Option.noConfusion hEq)).1
  · exact c9_route_table_invariant.2.2 [] "GET" "/x" (hOk 1 ok200) "POST" "/x"
      (Or.inl (by decide))

/-- C10: when the scan is exhausted without a response and every recorded
error is falsy, the dispatch returns the not-found response rather than the
internal-error response, because the final check tests the truthiness of
lastError. -/
theorem c10_falsy_errors (r : Router) (req : Request)
    (hnone : (dispatchScan r req).resp = none)
    (hfalsy : ∀ e ∈ errorsOf (dispatchScan r req).events, truthy e = false) :
    (dispatch r req).1 = notFoundResponse := by
  rw [dispatch_of_resp_none r req hnone, dispatchScan_lastErr]
  have hf := lastD_falsy (errorsOf (dispatchScan r req).events) JSVal.nullV rfl hfalsy
  rw [if_neg (by simp [hf])]

/-- Witness for C10 with a single handler throwing the falsy null. -/
theorem c10_falsy_errors_witness :
    (dispatch rC10x reqX).1 = notFoundResponse := by
  exact c10_falsy_errors rC10x reqX rfl (by decide)

end EPRouter
